import Mathlib

/-!
Verification of the adaptive silence-segmentation engine of `snarp.py`
(Simple Noise Activated Recording in Python).

The Python source is shallowly embedded:

* `tag_segments` (the hysteresis segmenter, `snarp.py` lines 171-269) becomes a
  step function `segStep` folded over the list of labeled chunks by
  `runTagSegments`; the generator's yields become the emitted
  `(chunk_in_silent_segment, chunk_frames)` list.  `RingBuffer.append`
  (lines 124-130) becomes `ringBufferAppend`; the Python method raises
  `IndexError` when `maxlen = 0` (it calls `popleft` on an empty deque), which
  the embedding models by returning `none`.
* `tag_chunks` (lines 271-308) classifies one chunk at a time; its loop body
  becomes `tag_chunk`.  Python's out-of-range list indexing (`[0]` on an empty
  slice) is modelled by `Option`.  Threshold limits are modelled as rationals:
  every IEEE double the program can hold is a dyadic rational, so quantifying
  over `ℚ` covers all threshold pairs reachable by the code.
* `dbfs_to_sample_delta` / `sample_delta_to_dbfs` (lines 132-142) use
  transcendental functions and are modelled over `ℝ`.
* `frame_to_sample` (lines 342-371) becomes a total function into
  `Except DecodeError Int`; the Python `KeyError` on a width outside
  {1,2,4} is the `unsupportedWidth` error, and a `struct.error` on a short
  byte block is the `structError` error.
-/

/-- Configuration of the segmenter: the globals `PRE_ROLL_CHUNKS`,
`POST_ROLL_CHUNKS` and `HYSTERESIS_CHUNKS` of `snarp.py`. -/
structure SegCfg where
  pre_roll_chunks : Nat
  post_roll_chunks : Nat
  hysteresis_chunks : Nat
  deriving DecidableEq, Repr

/-- Capacity of the segmenter's ring buffer:
`RingBuffer(maxlen=max(PRE_ROLL_CHUNKS, POST_ROLL_CHUNKS))` (line 184). -/
def SegCfg.cap (cfg : SegCfg) : Nat :=
  max cfg.pre_roll_chunks cfg.post_roll_chunks

/-- Mutable state of the `tag_segments` loop: the ring buffer contents
(oldest first), the current segment label `segment_silent` and the
`hysteresis_counter`. -/
structure SegState (α : Type u) where
  buffer : List α
  segment_silent : Bool
  hysteresis_counter : Nat
  deriving DecidableEq, Repr

/-- `RingBuffer.append` (lines 124-130): on insert into a full buffer the
oldest entry is popped and returned to the caller.  When `maxlen = 0` the
buffer is "full" while empty and `popleft` raises `IndexError`, modelled by
`none`.  Otherwise returns `(discarded entry or none, new contents)`. -/
def ringBufferAppend (cap : Nat) (buf : List α) (x : α) :
    Option (Option α × List α) :=
  if buf.length = cap then
    match buf with
    | [] => none
    | h :: t => some (some h, t ++ [x])
  else
    some (none, buf ++ [x])

/-- First phase of one `tag_segments` iteration (lines 188-202): on a label
mismatch bump the hysteresis counter; on a match reset it to zero, first
flushing the buffered silent chunks back into the audible segment (tagged
audible) when currently in an audible segment.  Returns the yielded pairs and
the updated state. -/
def segPhase1 (s : SegState α) (chunk_silent : Bool) :
    List (Bool × α) × SegState α :=
  if chunk_silent ≠ s.segment_silent then
    ([], ⟨s.buffer, s.segment_silent, s.hysteresis_counter + 1⟩)
  else if s.segment_silent then
    ([], ⟨s.buffer, s.segment_silent, 0⟩)
  else
    (s.buffer.map fun f => (false, f), ⟨[], s.segment_silent, 0⟩)

/-- Emissions and state of the silent-to-audible transition (lines 213-229):
pop the `len(buffer) - PRE_ROLL_CHUNKS` oldest buffered chunks (tagged
audible, line 219), yield the remaining buffer as pre-roll (tagged audible),
clear the buffer and emit the triggering audible chunk. -/
def segEnterAudible (cfg : SegCfg) (t : SegState α) (chunk_frames : α) :
    List (Bool × α) × SegState α :=
  (((t.buffer.take (t.buffer.length - cfg.pre_roll_chunks)).map
      fun f => (false, f))
    ++ ((t.buffer.drop (t.buffer.length - cfg.pre_roll_chunks)).map
      fun f => (false, f))
    ++ [(false, chunk_frames)],
    ⟨[], false, t.hysteresis_counter⟩)

/-- Emissions and state of the audible-to-silent transition (lines 230-248):
the first `POST_ROLL_CHUNKS` buffered chunks close the audible segment
(tagged audible), the rest go to the new silent segment, the buffer is
cleared and the triggering silent chunk is emitted to the silent segment. -/
def segEnterSilent (cfg : SegCfg) (t : SegState α) (chunk_frames : α) :
    List (Bool × α) × SegState α :=
  (((t.buffer.take cfg.post_roll_chunks).map fun f => (false, f))
    ++ ((t.buffer.drop cfg.post_roll_chunks).map fun f => (true, f))
    ++ [(true, chunk_frames)],
    ⟨[], true, t.hysteresis_counter⟩)

/-- One iteration of the `tag_segments` loop (lines 187-263) on one labeled
chunk `(chunk_silent, chunk_frames)`.  Returns the list of yielded
`(chunk_in_silent_segment, chunk_frames)` pairs and the successor state, or
`none` if `RingBuffer.append` raised.  The phases mirror the source: first
the hysteresis bump / reset-and-flush (lines 188-202, `segPhase1`), then the
four cases of changing / not changing state crossed with silent / audible
chunk (lines 204-263). -/
def segStep (cfg : SegCfg) (s : SegState α) (chunk_silent : Bool)
    (chunk_frames : α) : Option (List (Bool × α) × SegState α) :=
  let out1 := (segPhase1 s chunk_silent).1
  let t := (segPhase1 s chunk_silent).2
  if (t.segment_silent = true ∧ chunk_silent = false) ∨
      cfg.hysteresis_chunks ≤ t.hysteresis_counter then
    if chunk_silent = false then
      some (out1 ++ (segEnterAudible cfg t chunk_frames).1,
        (segEnterAudible cfg t chunk_frames).2)
    else
      some (out1 ++ (segEnterSilent cfg t chunk_frames).1,
        (segEnterSilent cfg t chunk_frames).2)
  else
    if chunk_silent = true then
      match ringBufferAppend cfg.cap t.buffer chunk_frames with
      | none => none
      | some (discard, buf) =>
        some (out1 ++ (discard.map fun f => (true, f)).toList,
          ⟨buf, t.segment_silent, t.hysteresis_counter⟩)
    else
      some (out1 ++ [(false, chunk_frames)], t)

/-- The `tag_segments` loop folded over a list of labeled chunks, threading
state and collecting emissions; `none` if any step raised. -/
def runTagSegments (cfg : SegCfg) :
    SegState α → List (Bool × α) → Option (List (Bool × α) × SegState α)
  | s, [] => some ([], s)
  | s, c :: cs =>
    match segStep cfg s c.1 c.2 with
    | none => none
    | some (out, s1) =>
      match runTagSegments cfg s1 cs with
      | none => none
      | some (rest, s2) => some (out ++ rest, s2)

/-- `tag_segments` (lines 171-269): starts with an empty buffer in a silent
segment with zero hysteresis counter (lines 184-186), processes every chunk,
then flushes the left-over buffer tagged with the currently active segment
label (lines 267-269). -/
def tag_segments (cfg : SegCfg) (tagged_chunks : List (Bool × α)) :
    Option (List (Bool × α)) :=
  match runTagSegments cfg ⟨[], true, 0⟩ tagged_chunks with
  | none => none
  | some (out, s) => some (out ++ s.buffer.map fun f => (s.segment_silent, f))

/-- `segmenter` (lines 161-169) groups the emission stream of `tag_segments`
by its label via `itertools.groupby`: consecutive equal-label emissions form
one segment. -/
def groupSegments : List (Bool × α) → List (Bool × List α)
  | [] => []
  | (b, x) :: rest =>
    match groupSegments rest with
    | [] => [(b, [x])]
    | (b2, xs) :: gs =>
      if b = b2 then (b, x :: xs) :: gs else (b, [x]) :: (b2, xs) :: gs

/-- The sample sequence sorted ascending: `sorted(chunk_samples)` (line 282). -/
def sortedSamples (l : List Int) : List Int :=
  l.insertionSort (· ≤ ·)

/-- Loop body of `tag_chunks` (lines 282-308) on one non-empty chunk sample
sequence: sort, split at `int(count/2)` into `first` and `last`, take
`q1 = first[int(len(first)/2):][0]` and `q3 = last[int(len(last)/2):][0]`,
`min_ = samples[0]`, `max_ = samples[count-1]`, and label the chunk silent
unless `max_ - min_ > max_delta or q3 - q1 > iqr_delta`.  Returns the yielded
`silence` flag, or `none` where the Python indexing raises `IndexError`
(`[0]` of an empty slice). -/
def tag_chunk (max_delta iqr_delta : ℚ) (chunk_samples : List Int) :
    Option Bool :=
  let samples := sortedSamples chunk_samples
  let count := samples.length
  let first := samples.take (count / 2)
  let last := samples.drop (count / 2)
  match (first.drop (first.length / 2)).head?,
      (last.drop (last.length / 2)).head? with
  | some q1, some q3 =>
    match samples.head?, (samples.drop (count - 1)).head? with
    | some min_, some max_ =>
      let audible := decide (((max_ - min_ : ℤ) : ℚ) > max_delta)
        || decide (((q3 - q1 : ℤ) : ℚ) > iqr_delta)
      some (!audible)
    | _, _ => none
  | _, _ => none

/-- Q1 as the claims describe it: the element of the sorted list at the
integer midpoint index of the lower half `sorted[:n/2]`, i.e. global index
`(n/2)/2`. -/
def q1Index (n : Nat) : Nat := n / 2 / 2

/-- Q3 as the claims describe it: the element of the sorted list at the
integer midpoint index of the upper half `sorted[n/2:]`, i.e. global index
`n/2 + (n - n/2)/2`. -/
def q3Index (n : Nat) : Nat := n / 2 + (n - n / 2) / 2

/-- `dbfs_to_sample_delta` (lines 132-136):
`10.0 ** (dbfs / 10.0) * 2.0 ** (sample_width * 8)`, modelled over `ℝ`. -/
noncomputable def dbfs_to_sample_delta (dbfs : ℝ) (sample_width : Nat) : ℝ :=
  (10 : ℝ) ^ (dbfs / 10) * (2 : ℝ) ^ (sample_width * 8)

/-- `sample_delta_to_dbfs` (lines 138-142):
`math.log(max(sample_delta, 1) / 2.0 ** (sample_width * 8)) / math.log(10) * 10`,
modelled over `ℝ`. -/
noncomputable def sample_delta_to_dbfs (sample_delta : ℝ) (sample_width : Nat) : ℝ :=
  Real.log (max sample_delta 1 / (2 : ℝ) ^ (sample_width * 8)) / Real.log 10 * 10

/-- Errors `frame_to_sample` can raise: `KeyError` on a sample width outside
{1,2,4} (the `UnsupportedSampleWidth` kind of the spec), and `struct.error`
on a byte block shorter than the sample width. -/
inductive DecodeError where
  | unsupportedWidth
  | structError
  deriving DecidableEq, Repr

/-- Little-endian base-256 value of a byte list. -/
def bytesToNatLE : List Nat → Nat
  | [] => 0
  | b :: t => b + 256 * bytesToNatLE t

/-- `frame_to_sample` (lines 342-371): keep the first `sample_width` bytes of
the frame, build the struct format from the endianness flag, the signedness
flag and the width map `{4: l, 2: h, 1: b}` (raising `KeyError` - modelled as
`unsupportedWidth` - for any other width), and unpack.  `struct.unpack`
demands exactly `sample_width` bytes (`structError` otherwise) and decodes a
two's-complement integer when signed. -/
def frame_to_sample (frame : List Nat) (sample_width : Nat)
    (little_endian : Bool) (signed_data : Bool) : Except DecodeError Int :=
  if sample_width = 1 ∨ sample_width = 2 ∨ sample_width = 4 then
    let frame_data := frame.take sample_width
    if frame_data.length = sample_width then
      let u : Nat :=
        if little_endian then bytesToNatLE frame_data
        else bytesToNatLE frame_data.reverse
      if signed_data then
        if u < 2 ^ (8 * sample_width - 1) then .ok (u : Int)
        else .ok ((u : Int) - 2 ^ (8 * sample_width))
      else .ok (u : Int)
    else .error .structError
  else .error .unsupportedWidth

theorem ringBufferAppend_frames {cap : Nat} {buf : List α} {x : α}
    {d : Option α} {buf2 : List α}
    (h : ringBufferAppend cap buf x = some (d, buf2)) :
    d.toList ++ buf2 = buf ++ [x] := by
  unfold ringBufferAppend at h
  split at h
  · cases buf with
    | nil => simp at h
    | cons a t =>
      simp only [Option.some.injEq, Prod.mk.injEq] at h
      obtain ⟨h1, h2⟩ := h
      subst h1; subst h2
      simp
  · simp only [Option.some.injEq, Prod.mk.injEq] at h
    obtain ⟨h1, h2⟩ := h
    subst h1; subst h2
    simp

theorem ringBufferAppend_isSome {cap : Nat} {buf : List α} {x : α}
    (hcap : 1 ≤ cap) : (ringBufferAppend cap buf x).isSome := by
  unfold ringBufferAppend
  split
  · cases buf with
    | nil =>
      simp only [List.length_nil] at *
      omega
    | cons a t => simp
  · simp

theorem map_snd_map_pair (bb : Bool) (l : List α) :
    (l.map fun f => (bb, f)).map Prod.snd = l := by
  simp


theorem take_drop_append (n : Nat) (l r : List α) :
    l.take n ++ (l.drop n ++ r) = l ++ r := by
  rw [← List.append_assoc, List.take_append_drop]


theorem segStep_frames {cfg : SegCfg} {s : SegState α} {b : Bool} {c : α}
    {out : List (Bool × α)} {s2 : SegState α}
    (h : segStep cfg s b c = some (out, s2)) :
    out.map Prod.snd ++ s2.buffer = s.buffer ++ [c] := by
  obtain ⟨buf, seg, hc⟩ := s
  cases b <;> cases seg <;> simp only [segStep] at h
  · -- audible chunk in audible segment
    rw [show segPhase1 (⟨buf, false, hc⟩ : SegState α) false
        = (buf.map fun f => (false, f), ⟨[], false, 0⟩) from rfl] at h
    dsimp only at h
    simp only [reduceCtorEq, reduceIte, false_and, true_and, and_true,
      and_false, false_or, or_false, true_or, if_true, if_false] at h
    split at h
    · simp only [segEnterAudible, Option.some.injEq, Prod.mk.injEq] at h
      obtain ⟨h1, h2⟩ := h
      subst h1; subst h2
      simp [List.map_append]
    · simp only [Option.some.injEq, Prod.mk.injEq] at h
      obtain ⟨h1, h2⟩ := h
      subst h1; subst h2
      simp [List.map_append]
  · -- audible chunk in silent segment: always a transition
    rw [show segPhase1 (⟨buf, true, hc⟩ : SegState α) false
        = ([], ⟨buf, true, hc + 1⟩) from rfl] at h
    dsimp only at h
    simp only [reduceCtorEq, reduceIte, false_and, true_and, and_true,
      and_false, false_or, or_false, true_or, if_true, if_false,
      segEnterAudible, Option.some.injEq, Prod.mk.injEq] at h
    obtain ⟨h1, h2⟩ := h
    subst h1; subst h2
    simp [List.map_append, take_drop_append, List.map_map, Function.comp_def]
  · -- silent chunk in audible segment
    rw [show segPhase1 (⟨buf, false, hc⟩ : SegState α) true
        = ([], ⟨buf, false, hc + 1⟩) from rfl] at h
    dsimp only at h
    simp only [reduceCtorEq, reduceIte, false_and, true_and, and_true,
      and_false, false_or, or_false, true_or, if_true, if_false] at h
    split at h
    · simp only [segEnterSilent, Option.some.injEq, Prod.mk.injEq] at h
      obtain ⟨h1, h2⟩ := h
      subst h1; subst h2
      simp [List.map_append, take_drop_append, List.map_map, Function.comp_def]
    · split at h
      · simp at h
      case h_2 d buf2 heq =>
        simp only [Option.some.injEq, Prod.mk.injEq] at h
        obtain ⟨h1, h2⟩ := h
        subst h1; subst h2
        have hd := ringBufferAppend_frames heq
        cases d <;> simp_all
  · -- silent chunk in silent segment
    rw [show segPhase1 (⟨buf, true, hc⟩ : SegState α) true
        = ([], ⟨buf, true, 0⟩) from rfl] at h
    dsimp only at h
    simp only [reduceCtorEq, reduceIte, false_and, true_and, and_true,
      and_false, false_or, or_false, true_or, if_true, if_false] at h
    split at h
    · simp only [segEnterSilent, Option.some.injEq, Prod.mk.injEq] at h
      obtain ⟨h1, h2⟩ := h
      subst h1; subst h2
      simp [List.map_append, take_drop_append, List.map_map, Function.comp_def]
    · split at h
      · simp at h
      case h_2 d buf2 heq =>
        simp only [Option.some.injEq, Prod.mk.injEq] at h
        obtain ⟨h1, h2⟩ := h
        subst h1; subst h2
        have hd := ringBufferAppend_frames heq
        cases d <;> simp_all

theorem segStep_isSome (cfg : SegCfg) (hcap : 1 ≤ cfg.cap) (s : SegState α)
    (b : Bool) (c : α) : (segStep cfg s b c).isSome := by
  simp only [segStep]
  split
  · split <;> simp
  · split
    · cases hval : ringBufferAppend cfg.cap (segPhase1 s b).2.buffer c with
      | none =>
        have h2 := @ringBufferAppend_isSome _ cfg.cap
          (segPhase1 s b).2.buffer c hcap
        rw [hval] at h2
        simp at h2
      | some p =>
        obtain ⟨d, bb⟩ := p
        simp
    · simp

theorem runTagSegments_frames {cfg : SegCfg} {s : SegState α}
    {cs : List (Bool × α)} {out : List (Bool × α)} {s2 : SegState α}
    (h : runTagSegments cfg s cs = some (out, s2)) :
    out.map Prod.snd ++ s2.buffer = s.buffer ++ cs.map Prod.snd := by
  induction cs generalizing s out with
  | nil =>
    simp only [runTagSegments, Option.some.injEq, Prod.mk.injEq] at h
    obtain ⟨h1, h2⟩ := h
    subst h1; subst h2
    simp
  | cons c cs ih =>
    simp only [runTagSegments] at h
    split at h
    · simp at h
    case h_2 o1 s1 heq =>
      split at h
      · simp at h
      case h_2 rest sfin heq2 =>
        simp only [Option.some.injEq, Prod.mk.injEq] at h
        obtain ⟨h1, h2⟩ := h
        subst h1; subst h2
        have hstep := segStep_frames heq
        have hrest := ih heq2
        simp only [List.map_append, List.append_assoc, List.map_cons]
        rw [hrest, ← List.append_assoc, hstep, List.append_assoc]
        simp

theorem runTagSegments_isSome (cfg : SegCfg) (hcap : 1 ≤ cfg.cap)
    (s : SegState α) (cs : List (Bool × α)) :
    (runTagSegments cfg s cs).isSome := by
  induction cs generalizing s with
  | nil => simp [runTagSegments]
  | cons c cs ih =>
    simp only [runTagSegments]
    cases hval : segStep cfg s c.1 c.2 with
    | none =>
      have h2 := segStep_isSome cfg hcap s c.1 c.2
      rw [hval] at h2
      simp at h2
    | some p =>
      obtain ⟨o1, s1⟩ := p
      cases hval2 : runTagSegments cfg s1 cs with
      | none =>
        have h2 := ih s1
        rw [hval2] at h2
        simp at h2
      | some q =>
        obtain ⟨rest, sfin⟩ := q
        simp [hval2]

theorem groupSegments_flatten (l : List (Bool × α)) :
    ((groupSegments l).map Prod.snd).flatten = l.map Prod.snd := by
  induction l with
  | nil => simp [groupSegments]
  | cons c rest ih =>
    obtain ⟨b, x⟩ := c
    simp only [groupSegments]
    split
    · simp_all [groupSegments]
    case h_2 b2 xs gs heq =>
      rw [heq] at ih
      split
      · simp only [List.map_cons, List.flatten_cons] at ih ⊢
        simp [← ih]
      · simp only [List.map_cons, List.flatten_cons] at ih ⊢
        simp [← ih]

/-- C1 (amended): for every finite input chunk stream and every configuration
whose ring-buffer capacity `max(pre_roll_chunks, post_roll_chunks)` is at
least 1, `tag_segments` succeeds and concatenating the frame blocks of all
emitted segments, silent and audible together, in emission order — both as
the raw emission stream and as the run-length-grouped segments — equals the
original input frame-block sequence exactly: no chunk's frames are
duplicated, dropped, or reordered. -/
theorem tag_segments_partition (cfg : SegCfg)
    (hcap : 1 ≤ max cfg.pre_roll_chunks cfg.post_roll_chunks)
    (chunks : List (Bool × α)) :
    ∃ out, tag_segments cfg chunks = some out ∧
      out.map Prod.snd = chunks.map Prod.snd ∧
      ((groupSegments out).map Prod.snd).flatten = chunks.map Prod.snd := by
  have hcap2 : 1 ≤ cfg.cap := hcap
  have hrun := runTagSegments_isSome cfg hcap2 (⟨[], true, 0⟩ : SegState α)
    chunks
  obtain ⟨⟨emit, sfin⟩, heq⟩ := Option.isSome_iff_exists.mp hrun
  have hframes := runTagSegments_frames heq
  simp only [List.nil_append] at hframes
  have hout : (emit ++ sfin.buffer.map
      fun f => (sfin.segment_silent, f)).map Prod.snd
      = chunks.map Prod.snd := by
    simp only [List.map_append, List.map_map]
    have hcomp : (Prod.snd ∘ fun f : α => (sfin.segment_silent, f)) = id := rfl
    rw [hcomp, List.map_id]
    exact hframes
  refine ⟨emit ++ sfin.buffer.map fun f => (sfin.segment_silent, f), ?_, hout, ?_⟩
  · simp [tag_segments, heq]
  · rw [groupSegments_flatten]
    exact hout

/-- Witness for the C1 theorem: a concrete configuration and input chunk
stream satisfying its capacity hypothesis. -/
theorem tag_segments_partition_witness :
    ∃ out : List (Bool × Nat),
      tag_segments ⟨2, 1, 10⟩ [(true, 0), (false, 1)] = some out ∧
      out.map Prod.snd = ([(true, 0), (false, 1)] : List (Bool × Nat)).map Prod.snd ∧
      ((groupSegments out).map Prod.snd).flatten
        = ([(true, 0), (false, 1)] : List (Bool × Nat)).map Prod.snd :=
  tag_segments_partition ⟨2, 1, 10⟩ (by decide) [(true, 0), (false, 1)]

/-- C1 counterexample: with `pre_roll_chunks = post_roll_chunks = 0` the ring
buffer has capacity 0, and on the first buffered silent chunk
`RingBuffer.append` calls `popleft` on an empty deque, raising `IndexError`:
the run aborts, no output stream is produced, and concatenating the emitted
segments cannot reproduce the input.  So the claim fails for this
configuration. -/
theorem tag_segments_zero_capacity_counterexample :
    tag_segments ⟨0, 0, 10⟩ [(true, (0 : Nat))] = none ∧
    ¬ ∃ out : List (Bool × Nat),
        tag_segments ⟨0, 0, 10⟩ [(true, (0 : Nat))] = some out ∧
        out.map Prod.snd = [0] := by
  refine ⟨by decide, ?_⟩
  rintro ⟨out, hout, -⟩
  rw [show tag_segments ⟨0, 0, 10⟩ [(true, (0 : Nat))] = none by decide] at hout
  exact Option.noConfusion hout

/-- C2: the code fails the claim.  With `HYSTERESIS_CHUNKS = 2` and
`PRE_ROLL_CHUNKS = POST_ROLL_CHUNKS = 1`, feeding an audible chunk, one
silent chunk, then an audible chunk makes `tag_segments` tag the middle chunk
silent: the hysteresis counter is not reset on the silent-to-audible
transition, so it still holds the increment from the attack and a single
silent chunk (not 2 consecutive ones) already reaches the threshold and
splits the audible segment. -/
theorem hysteresis_carryover_failing_input :
    tag_segments ⟨1, 1, 2⟩ [(false, 1), (true, 2), (false, (3 : Nat))]
      = some [(false, 1), (true, 2), (false, 3)] := by decide

/-- C3 counterexample: in an audible segment (`segment_silent = false`) whose
ring buffer (capacity 1) already holds chunk 2, inserting silent chunk 3 with
no transition pending (hysteresis 3 of 10) evicts chunk 2 emitted tagged
silent (`true`), not tagged audible (`false`) as the claim states for
`InAudibleSegment`. -/
theorem ringbuffer_overflow_counterexample :
    segStep ⟨1, 1, 10⟩ (⟨[2], false, 2⟩ : SegState Nat) true 3
      = some ([(true, 2)], ⟨[3], false, 3⟩) ∧
    segStep ⟨1, 1, 10⟩ (⟨[2], false, 2⟩ : SegState Nat) true 3
      ≠ some ([(false, 2)], ⟨[3], false, 3⟩) := by decide

/-- C3 (amended): whenever the ring buffer overflows on inserting a silent
chunk with no transition pending, the evicted oldest chunk is emitted
immediately tagged silent (`true`) regardless of the currently active
segment; this coincides with the active segment's label only while in
`InSilentSegment`. -/
theorem ringbuffer_overflow_evicts_silent (cfg : SegCfg) (s : SegState α)
    (c hd : α) (tl : List α)
    (hbuf : s.buffer = hd :: tl)
    (hfull : s.buffer.length = cfg.cap)
    (hns : s.segment_silent = true → ¬ cfg.hysteresis_chunks ≤ 0)
    (hna : s.segment_silent = false →
      ¬ cfg.hysteresis_chunks ≤ s.hysteresis_counter + 1) :
    segStep cfg s true c = some ([(true, hd)],
      ⟨tl ++ [c], s.segment_silent,
        if s.segment_silent then 0 else s.hysteresis_counter + 1⟩) := by
  obtain ⟨buf, seg, hc⟩ := s
  dsimp only at hbuf hns hna ⊢
  subst hbuf
  cases seg
  · -- in audible segment
    simp only [segStep]
    rw [show segPhase1 (⟨hd :: tl, false, hc⟩ : SegState α) true
        = ([], ⟨hd :: tl, false, hc + 1⟩) from rfl]
    dsimp only
    rw [if_neg]
    · rw [if_pos trivial]
      unfold ringBufferAppend
      rw [if_pos hfull]
      simp
    · rintro (⟨h1, -⟩ | h2)
      · exact Bool.noConfusion h1
      · exact hna rfl h2
  · -- in silent segment
    simp only [segStep]
    rw [show segPhase1 (⟨hd :: tl, true, hc⟩ : SegState α) true
        = ([], ⟨hd :: tl, true, 0⟩) from rfl]
    dsimp only
    rw [if_neg]
    · rw [if_pos trivial]
      unfold ringBufferAppend
      rw [if_pos hfull]
      simp
    · rintro (⟨-, h1⟩ | h2)
      · exact Bool.noConfusion h1
      · exact hns rfl h2

/-- Witness for the C3 theorem: concrete overflow in an audible segment. -/
theorem ringbuffer_overflow_evicts_silent_witness :
    segStep ⟨1, 1, 10⟩ (⟨[2], false, 2⟩ : SegState Nat) true 3
      = some ([(true, 2)],
        ⟨[] ++ [3], false, if false = true then 0 else 2 + 1⟩) := by
  have h := ringbuffer_overflow_evicts_silent ⟨1, 1, 10⟩
    (⟨[2], false, 2⟩ : SegState Nat) 3 2 [] rfl (by decide) (by decide)
    (by decide)
  simpa using h

/-- C4: the code fails the claim and its own comment ("first, take any extra
buffer and append to silent segment", line 216).  With `PRE_ROLL_CHUNKS = 1`,
`POST_ROLL_CHUNKS = 2` (buffer capacity 2), feeding two silent chunks then an
audible chunk: at the silent-to-audible transition the buffer holds chunks
1 and 2, the excess chunk 1 beyond the most recent 1 pre-roll chunk is
emitted tagged audible (`false`, line 219) — it joins the new audible
segment instead of closing the silent segment as the claim states. -/
theorem preroll_excess_failing_input :
    tag_segments ⟨1, 2, 10⟩ [(true, 1), (true, 2), (false, (3 : Nat))]
      = some [(false, 1), (false, 2), (false, 3)] := by decide

/-- The 27-chunk scenario of C5: 10 silent-labeled chunks, then 5
audible-labeled chunks, then 12 silent-labeled chunks, with frames numbered
1 to 27. -/
def input27 : List (Bool × Nat) :=
  [(true, 1), (true, 2), (true, 3), (true, 4), (true, 5), (true, 6),
   (true, 7), (true, 8), (true, 9), (true, 10),
   (false, 11), (false, 12), (false, 13), (false, 14), (false, 15),
   (true, 16), (true, 17), (true, 18), (true, 19), (true, 20), (true, 21),
   (true, 22), (true, 23), (true, 24), (true, 25), (true, 26), (true, 27)]

/-- C5 counterexample: with `pre_roll_chunks = 2`, `post_roll_chunks = 1`,
`hysteresis_chunks = 10`, the 27-chunk scenario yields five segments of
lengths 8, 7, 7, 1, 4 — not the three segments of lengths 8, 8, 11 the claim
states.  (The ring buffer, capacity 2, overflows during the trailing silent
run while still inside the audible segment, and each evicted chunk is emitted
tagged silent, fragmenting the tail.) -/
theorem scenario27_counterexample :
    (tag_segments ⟨2, 1, 10⟩ input27).map
        (fun out => (groupSegments out).map fun g => (g.1, g.2.length))
      = some [(true, 8), (false, 7), (true, 7), (false, 1), (true, 4)] ∧
    ([(true, 8), (false, 7), (true, 7), (false, 1), (true, 4)]
        : List (Bool × Nat))
      ≠ [(true, 8), (false, 8), (true, 11)] := by decide

/-- C5 (amended): the scenario produces exactly five segments — silent chunks
1-8, audible chunks 9-15 (2 pre-roll + 5 audible), silent chunks 16-22
(evicted from the ring buffer during the pause), a one-chunk audible segment
holding the post-roll chunk 23, and silent chunks 24-27 — totalling the
original 27 chunks. -/
theorem scenario27_segments :
    (tag_segments ⟨2, 1, 10⟩ input27).map groupSegments
      = some [(true, [1, 2, 3, 4, 5, 6, 7, 8]),
              (false, [9, 10, 11, 12, 13, 14, 15]),
              (true, [16, 17, 18, 19, 20, 21, 22]),
              (false, [23]),
              (true, [24, 25, 26, 27])] := by decide

theorem sortedSamples_length (l : List Int) :
    (sortedSamples l).length = l.length :=
  List.length_insertionSort (· ≤ ·) l

theorem sortedSamples_head_minimum (l : List Int)
    (h0 : 0 < (sortedSamples l).length) :
    l.minimum = ((sortedSamples l).get ⟨0, h0⟩ : WithTop ℤ) := by
  rw [List.minimum_eq_coe_iff]
  constructor
  · exact (List.perm_insertionSort _ l).subset (List.get_mem _ _ _)
  · intro b hb
    have hbs : b ∈ sortedSamples l :=
      ((List.perm_insertionSort _ l).symm.subset) hb
    obtain ⟨i, hi, rfl⟩ := List.mem_iff_getElem.mp hbs
    have hrel := (List.sorted_insertionSort _ l).rel_get_of_le
      (show (⟨0, h0⟩ : Fin (sortedSamples l).length) ≤ ⟨i, hi⟩ by simp)
    simpa using hrel

theorem sortedSamples_last_maximum (l : List Int)
    (h1 : l.length - 1 < (sortedSamples l).length) :
    l.maximum = ((sortedSamples l).get ⟨l.length - 1, h1⟩ : WithBot ℤ) := by
  rw [List.maximum_eq_coe_iff]
  constructor
  · exact (List.perm_insertionSort _ l).subset (List.get_mem _ _ _)
  · intro b hb
    have hbs : b ∈ sortedSamples l :=
      ((List.perm_insertionSort _ l).symm.subset) hb
    obtain ⟨i, hi, rfl⟩ := List.mem_iff_getElem.mp hbs
    have hile : i ≤ l.length - 1 := by
      have := sortedSamples_length l
      omega
    have hrel := (List.sorted_insertionSort _ l).rel_get_of_le
      (show (⟨i, hi⟩ : Fin (sortedSamples l).length) ≤ ⟨l.length - 1, h1⟩ by
        simpa using hile)
    simpa using hrel

theorem tag_chunk_spec (max_delta iqr_delta : ℚ) (l : List Int)
    (h2 : 2 ≤ l.length) :
    ∃ (mn mx q1 q3 : ℤ),
      l.minimum = (mn : WithTop ℤ) ∧
      l.maximum = (mx : WithBot ℤ) ∧
      (sortedSamples l)[q1Index l.length]? = some q1 ∧
      (sortedSamples l)[q3Index l.length]? = some q3 ∧
      tag_chunk max_delta iqr_delta l
        = some (!(decide (((mx - mn : ℤ) : ℚ) > max_delta)
            || decide (((q3 - q1 : ℤ) : ℚ) > iqr_delta))) := by
  have hlen := sortedSamples_length l
  have h0 : 0 < (sortedSamples l).length := by omega
  have hq1lt : q1Index l.length < (sortedSamples l).length := by
    unfold q1Index; omega
  have hq3lt : q3Index l.length < (sortedSamples l).length := by
    unfold q3Index; omega
  have hn1lt : l.length - 1 < (sortedSamples l).length := by omega
  refine ⟨(sortedSamples l).get ⟨0, h0⟩,
    (sortedSamples l).get ⟨l.length - 1, hn1lt⟩,
    (sortedSamples l).get ⟨q1Index l.length, hq1lt⟩,
    (sortedSamples l).get ⟨q3Index l.length, hq3lt⟩,
    sortedSamples_head_minimum l h0,
    sortedSamples_last_maximum l hn1lt, by simp, by simp, ?_⟩
  simp only [tag_chunk, List.head?_eq_getElem?, List.getElem?_drop,
    List.length_take, List.length_drop, hlen,
    Nat.min_eq_left (Nat.div_le_self l.length 2), Nat.add_zero]
  rw [List.getElem?_take_of_lt (by omega : l.length / 2 / 2 < l.length / 2)]
  have hq1 : (sortedSamples l)[l.length / 2 / 2]?
      = some ((sortedSamples l).get ⟨q1Index l.length, hq1lt⟩) := by
    simp [q1Index]
  have hq3 : (sortedSamples l)[l.length / 2 + (l.length - l.length / 2) / 2]?
      = some ((sortedSamples l).get ⟨q3Index l.length, hq3lt⟩) := by
    simp [q3Index]
  have hmn : (sortedSamples l)[(0 : Nat)]?
      = some ((sortedSamples l).get ⟨0, h0⟩) := by
    simp
  have hmx : (sortedSamples l)[l.length - 1]?
      = some ((sortedSamples l).get ⟨l.length - 1, hn1lt⟩) := by
    simp
  rw [hq1, hq3, hmn, hmx]

/-- C6: for every chunk with at least two samples and every threshold pair,
`tag_chunk` succeeds, and it labels the chunk audible (silence flag `false`)
if and only if `max sample - min sample > peak_limit` or `q3 - q1 >
iqr_limit`, where the sorted samples are split at index `n / 2` into lower
and upper halves and `q1`, `q3` are the elements at the integer midpoint
index of each half (`q1Index`, `q3Index`; no interpolation). -/
theorem tag_chunk_audible_iff (max_delta iqr_delta : ℚ) (l : List Int)
    (h2 : 2 ≤ l.length) :
    ∃ (b : Bool) (mn mx q1 q3 : ℤ),
      tag_chunk max_delta iqr_delta l = some b ∧
      l.minimum = (mn : WithTop ℤ) ∧
      l.maximum = (mx : WithBot ℤ) ∧
      (sortedSamples l)[q1Index l.length]? = some q1 ∧
      (sortedSamples l)[q3Index l.length]? = some q3 ∧
      (b = false ↔
        (((mx - mn : ℤ) : ℚ) > max_delta ∨ ((q3 - q1 : ℤ) : ℚ) > iqr_delta)) := by
  obtain ⟨mn, mx, q1, q3, hmin, hmax, hq1, hq3, htag⟩ :=
    tag_chunk_spec max_delta iqr_delta l h2
  refine ⟨_, mn, mx, q1, q3, htag, hmin, hmax, hq1, hq3, ?_⟩
  have hbool : ∀ u v : Bool, ((!(u || v)) = false ↔ (u = true ∨ v = true)) := by
    decide
  rw [hbool]
  simp only [decide_eq_true_eq]

/-- Witness for the C6 theorem: the chunk `[0, 10]` with thresholds
`(5, 100)` satisfies the length hypothesis. -/
theorem tag_chunk_audible_iff_witness :
    ∃ (b : Bool) (mn mx q1 q3 : ℤ),
      tag_chunk 5 100 [0, 10] = some b ∧
      ([0, 10] : List Int).minimum = (mn : WithTop ℤ) ∧
      ([0, 10] : List Int).maximum = (mx : WithBot ℤ) ∧
      (sortedSamples [0, 10])[q1Index ([0, 10] : List Int).length]? = some q1 ∧
      (sortedSamples [0, 10])[q3Index ([0, 10] : List Int).length]? = some q3 ∧
      (b = false ↔
        (((mx - mn : ℤ) : ℚ) > 5 ∨ ((q3 - q1 : ℤ) : ℚ) > 100)) :=
  tag_chunk_audible_iff 5 100 [0, 10] (by simp)

/-- C10 counterexample: on a chunk holding exactly one sample the lower half
`samples[:0]` is empty and `q1 = first[0:][0]` raises `IndexError`
(`tag_chunk` returns `none`): classification is not total on all non-empty
chunks. -/
theorem tag_chunk_singleton_counterexample :
    tag_chunk 0 0 [5] = none := by
  rfl

/-- C10 (amended): on every chunk with at least two samples the quartile
computation indexes only in-range positions of the sorted sample list and
classification is total; a one-sample chunk (possible as the final partial
chunk) instead makes the lower half empty and the `q1` lookup fail. -/
theorem tag_chunk_total (max_delta iqr_delta : ℚ) (l : List Int)
    (h2 : 2 ≤ l.length) : (tag_chunk max_delta iqr_delta l).isSome := by
  obtain ⟨mn, mx, q1, q3, -, -, -, -, htag⟩ :=
    tag_chunk_spec max_delta iqr_delta l h2
  rw [htag]
  rfl

/-- Witness for the C10 theorem: the two-sample chunk `[0, 1]`. -/
theorem tag_chunk_total_witness : (tag_chunk 0 0 [0, 1]).isSome :=
  tag_chunk_total 0 0 [0, 1] (by simp)

/-- C7 (amended): the round trip
`sample_delta_to_dbfs (dbfs_to_sample_delta x w) w = x` holds exactly (over
the reals) whenever the converted raw delta `10^(x/10) · 2^(8w)` is at least
1, so that the `max(delta, 1)` clamp in `sample_delta_to_dbfs` is inactive.
This covers all preset dBFS values at widths 2 and 4 and the values down to
about -24 dBFS at width 1; below that the clamp floors the result (see the
counterexample). -/
theorem dbfs_roundtrip (x : ℝ) (w : Nat)
    (h1 : 1 ≤ dbfs_to_sample_delta x w) :
    sample_delta_to_dbfs (dbfs_to_sample_delta x w) w = x := by
  unfold dbfs_to_sample_delta at h1 ⊢
  unfold sample_delta_to_dbfs
  rw [max_eq_left h1]
  have hne : ((2 : ℝ) ^ (w * 8)) ≠ 0 := by positivity
  rw [mul_div_cancel_right₀ _ hne]
  rw [Real.log_rpow (by norm_num : (0 : ℝ) < 10)]
  have hlog : Real.log 10 ≠ 0 := (Real.log_pos (by norm_num)).ne'
  field_simp
  ring

/-- Witness for the C7 theorem: 0 dBFS at width 1 gives delta 256 ≥ 1 and
round-trips to 0. -/
theorem dbfs_roundtrip_witness :
    1 ≤ dbfs_to_sample_delta 0 1 ∧
    sample_delta_to_dbfs (dbfs_to_sample_delta 0 1) 1 = 0 := by
  have h1 : 1 ≤ dbfs_to_sample_delta 0 1 := by
    unfold dbfs_to_sample_delta
    rw [zero_div, Real.rpow_zero]
    norm_num
  exact ⟨h1, dbfs_roundtrip 0 1 h1⟩

/-- C7 counterexample: at the preset value -30 dBFS (the default quiet
preset's IQR limit) with sample width 1, the raw delta is
`10^(-3) · 256 = 0.256 < 1`, the clamp takes over, and the round trip
returns `10 · log10(1/256) ≈ -24.08`: not equal to -30 and more than 5 dB
away from it, far beyond floating-point tolerance. -/
theorem dbfs_roundtrip_counterexample :
    sample_delta_to_dbfs (dbfs_to_sample_delta (-30) 1) 1 ≠ -30 ∧
    (-25 : ℝ) < sample_delta_to_dbfs (dbfs_to_sample_delta (-30) 1) 1 := by
  have hd : dbfs_to_sample_delta (-30) 1 = 256 / 1000 := by
    unfold dbfs_to_sample_delta
    have h3 : ((-30 : ℝ) / 10) = ((-3 : ℤ) : ℝ) := by norm_num
    rw [h3, Real.rpow_intCast]
    norm_num
  have hmax : max (dbfs_to_sample_delta (-30) 1) 1 = 1 := by
    rw [hd]
    exact max_eq_right (by norm_num)
  have hval : sample_delta_to_dbfs (dbfs_to_sample_delta (-30) 1) 1
      = Real.log (1 / 256) / Real.log 10 * 10 := by
    unfold sample_delta_to_dbfs
    rw [hmax]
    norm_num
  have hlt : 2 * Real.log 256 < 5 * Real.log 10 := by
    have h2 : Real.log ((256 : ℝ) ^ (2 : Nat)) < Real.log ((10 : ℝ) ^ (5 : Nat)) :=
      Real.log_lt_log (by norm_num) (by norm_num)
    rw [Real.log_pow, Real.log_pow] at h2
    push_cast at h2
    linarith
  have hlogpos : 0 < Real.log 10 := Real.log_pos (by norm_num)
  have hgt : (-25 : ℝ) < Real.log (1 / 256) / Real.log 10 * 10 := by
    rw [one_div, Real.log_inv, div_mul_eq_mul_div, neg_mul, lt_div_iff₀ hlogpos]
    linarith
  constructor
  · intro heq
    rw [hval] at heq
    rw [heq] at hgt
    linarith
  · rw [hval]
    exact hgt

/-- C8: for every dBFS value and sample width of at least one byte, the
derived raw threshold limit is non-negative, equals the conversion formula
`10^(dbfs/10) · 2^(8·width)` of the spec, and for fixed dBFS is
`2^(bits - 1)` (with `bits = 8 · width`) times the width-independent factor
`2 · 10^(dbfs/10)`: the limit scales with `2^(bits - 1)` exactly as the
conversion formula prescribes. -/
theorem dbfs_limit_nonneg_scales (x : ℝ) (w : Nat) (hw : 1 ≤ w) :
    0 ≤ dbfs_to_sample_delta x w ∧
    dbfs_to_sample_delta x w = (10 : ℝ) ^ (x / 10) * 2 ^ (w * 8) ∧
    dbfs_to_sample_delta x w
      = (2 * (10 : ℝ) ^ (x / 10)) * 2 ^ (w * 8 - 1) := by
  refine ⟨?_, rfl, ?_⟩
  · unfold dbfs_to_sample_delta
    positivity
  · unfold dbfs_to_sample_delta
    have h8 : w * 8 - 1 + 1 = w * 8 := by omega
    have hpow : (2 : ℝ) ^ (w * 8) = 2 * 2 ^ (w * 8 - 1) := by
      conv_lhs => rw [← h8]
      rw [pow_succ]
      ring
    rw [hpow]
    ring

/-- Witness for the C8 theorem at 0 dBFS and width 1. -/
theorem dbfs_limit_nonneg_scales_witness :
    0 ≤ dbfs_to_sample_delta 0 1 ∧
    dbfs_to_sample_delta 0 1 = (10 : ℝ) ^ ((0 : ℝ) / 10) * 2 ^ (1 * 8) ∧
    dbfs_to_sample_delta 0 1
      = (2 * (10 : ℝ) ^ ((0 : ℝ) / 10)) * 2 ^ (1 * 8 - 1) :=
  dbfs_limit_nonneg_scales 0 1 (by norm_num)

/-- C9: decoding a frame fails with the `UnsupportedWidth` error for every
sample width outside {1,2,4} (aborting the run), and for widths in {1,2,4}
on a well-formed byte block (at least `width` bytes) it succeeds and returns
an integer. -/
theorem frame_to_sample_width (frame : List Nat) (w : Nat) (e s : Bool) :
    (¬ (w = 1 ∨ w = 2 ∨ w = 4) →
      frame_to_sample frame w e s = .error .unsupportedWidth) ∧
    ((w = 1 ∨ w = 2 ∨ w = 4) → w ≤ frame.length →
      ∃ z : Int, frame_to_sample frame w e s = .ok z) := by
  constructor
  · intro hw
    unfold frame_to_sample
    rw [if_neg hw]
  · intro hw hlen
    unfold frame_to_sample
    rw [if_pos hw]
    have htake : (frame.take w).length = w := by
      rw [List.length_take]
      omega
    rw [if_pos htake]
    cases e <;> cases s <;>
      simp only [reduceCtorEq, reduceIte, if_true, if_false] <;>
      first
        | exact ⟨_, rfl⟩
        | (split <;> exact ⟨_, rfl⟩)

/-- Witness for the C9 theorem: width 3 is rejected with the
`UnsupportedWidth` error; width 2 on a two-byte block decodes to an
integer. -/
theorem frame_to_sample_width_witness :
    frame_to_sample [0, 0, 0] 3 true true = .error .unsupportedWidth ∧
    ∃ z : Int, frame_to_sample [1, 2] 2 true true = .ok z :=
  ⟨(frame_to_sample_width [0, 0, 0] 3 true true).1 (by decide),
   (frame_to_sample_width [1, 2] 2 true true).2 (by decide) (by decide)⟩
